import Mathlib

/-!
Verification of `src/chapter_2/src_2/batch_generator.py`.

The program is a linear batch pipeline:
`create_data` builds `n` fake records, `write_to_csv` serialises them to a
delimited file with one header row, `add_id` appends a `unique_id` column
(via the tabular library's `with_columns`), and `update_datetime` parses the
`accessed_at` column with the fixed format `%Y-%m-%dT%H:%M:%S` and rewrites
each value as `%Y-%m-%dT%H:%M:%SZ`.

The embedding below models records, the on-disk table, and the three file
stages as pure functions; fallible steps return `Except`.  Machine reals do
not occur: the only float expression in the source,
`round((download_speed + upload_speed) * session_duration / 8, 2)`, divides
an integer below 2^21 by 8, which is exact in binary, so the value is the
rational `k/8` and Python's `round` (round-half-to-even on the exact value)
is modelled over the integers in hundredths.
-/

namespace BatchGen

/-! ## Decimal digits -/

/-- `'0' ≤ c ≤ '9'`, stated on code points (48–57). -/
def isDigitC (c : Char) : Bool := 48 ≤ c.toNat && c.toNat ≤ 57

/-- Numeric value of a digit character. -/
def d2n (c : Char) : Nat := c.toNat - 48

/-- The digit character for `d < 10`. -/
def digitChar10 (d : Nat) : Char := Char.ofNat (48 + d)

/-- Value of a run of decimal digit characters, most significant first. -/
def digitsToNat (ds : List Char) : Nat := ds.foldl (fun a c => 10 * a + d2n c) 0

/-- The last `w` decimal digits of `n`, most significant first, zero-padded
(mirrors `strftime` zero-padding of `%m`, `%d`, `%H`, `%M`, `%S`, `%Y`). -/
def natToPaddedDigits : Nat → Nat → List Char
  | 0, _ => []
  | w + 1, n => natToPaddedDigits w (n / 10) ++ [digitChar10 (n % 10)]

/-- All decimal digits of `n`, no padding (mirrors `str` of an `int`). -/
def natDigits (n : Nat) : List Char :=
  if _h : n < 10 then [digitChar10 n]
  else natDigits (n / 10) ++ [digitChar10 (n % 10)]
decreasing_by exact Nat.div_lt_self (by omega) (by omega)

/-- `str` of a non-negative integer. -/
def natToString (n : Nat) : String := ⟨natDigits n⟩

/-! ## Timestamp parsing (`str.to_datetime` with format `%Y-%m-%dT%H:%M:%S`) -/

structure DateTime where
  year : Nat
  month : Nat
  day : Nat
  hour : Nat
  minute : Nat
  second : Nat
deriving DecidableEq

def isLeapYear (y : Nat) : Bool := (y % 4 == 0 && y % 100 != 0) || y % 400 == 0

def daysInMonth (y mo : Nat) : Nat :=
  if mo = 2 then (if isLeapYear y then 29 else 28)
  else if mo = 4 ∨ mo = 6 ∨ mo = 9 ∨ mo = 11 then 30
  else 31

/-- Calendar/clock validity enforced by the datetime parser.  Leap seconds
(second = 60) do not occur in this pipeline's data — Python `isoformat`
emits seconds 0–59 — and are not modelled. -/
def validDT (t : DateTime) : Bool :=
  1 ≤ t.month && t.month ≤ 12 && 1 ≤ t.day && t.day ≤ daysInMonth t.year t.month
    && t.hour ≤ 23 && t.minute ≤ 59 && t.second ≤ 59

/-- Greedy run of at most `mx` digit characters (at least one), returning its
value and the unconsumed rest; the numeric-field scanner of the underlying
strptime-style parser (month/day/hour/minute/second scan up to 2 digits, the
unsigned year up to 4). -/
def readNum (mx : Nat) (cs : List Char) : Option (Nat × List Char) :=
  let ds := (cs.takeWhile isDigitC).take mx
  if ds.isEmpty then none else some (digitsToNat ds, cs.drop ds.length)

/-- Consume one expected literal character. -/
def expectChar (c : Char) : List Char → Option (List Char)
  | [] => none
  | x :: xs => if x = c then some xs else none

/-- Parse a string with the fixed format `%Y-%m-%dT%H:%M:%S`; the whole
string must be consumed (the `to_datetime` used in the source is exact) and
the date must be a valid proleptic-Gregorian calendar date. -/
def parseDT (s : String) : Option DateTime := do
  let (y, r) ← readNum 4 s.data
  let r ← expectChar '-' r
  let (mo, r) ← readNum 2 r
  let r ← expectChar '-' r
  let (d, r) ← readNum 2 r
  let r ← expectChar 'T' r
  let (h, r) ← readNum 2 r
  let r ← expectChar ':' r
  let (mi, r) ← readNum 2 r
  let r ← expectChar ':' r
  let (se, r) ← readNum 2 r
  let t : DateTime := ⟨y, mo, d, h, mi, se⟩
  if r.isEmpty && validDT t then some t else none

/-- A parse succeeds exactly when the value matches the input format. -/
def matchesInputFormat (s : String) : Bool := (parseDT s).isSome

/-- Zero-padded year, four digits for years below 10000 (all digits beyond
that, as `strftime` never truncates). -/
def padYear (y : Nat) : List Char :=
  if y < 10000 then natToPaddedDigits 4 y else natDigits y

/-- Zero-padded two-digit field (all digits beyond 99, never truncated). -/
def pad2 (n : Nat) : List Char :=
  if n < 100 then natToPaddedDigits 2 n else natDigits n

/-- Format a datetime as `%Y-%m-%dT%H:%M:%SZ` — the literal `Z` of
`update_datetime`'s output format string. -/
def formatDTZ (t : DateTime) : String :=
  ⟨padYear t.year ++ '-' :: pad2 t.month ++ '-' :: pad2 t.day ++
    'T' :: pad2 t.hour ++ ':' :: pad2 t.minute ++ ':' :: pad2 t.second ++ ['Z']⟩

/-! ## Textual timestamp patterns -/

/-- Consume exactly `k` digit characters. -/
def eatDigits : Nat → List Char → Option (List Char)
  | 0, cs => some cs
  | _ + 1, [] => none
  | k + 1, c :: cs => if isDigitC c then eatDigits k cs else none

/-- Consume the 19-character shape `\d{4}-\d{2}-\d{2}T\d{2}:\d{2}:\d{2}`. -/
def eatTimestampShape (cs : List Char) : Option (List Char) := do
  let r ← eatDigits 4 cs
  let r ← expectChar '-' r
  let r ← eatDigits 2 r
  let r ← expectChar '-' r
  let r ← eatDigits 2 r
  let r ← expectChar 'T' r
  let r ← eatDigits 2 r
  let r ← expectChar ':' r
  let r ← eatDigits 2 r
  let r ← expectChar ':' r
  eatDigits 2 r

/-- The regex `^\d{4}-\d{2}-\d{2}T\d{2}:\d{2}:\d{2}$`. -/
def isInputPattern (s : String) : Bool := eatTimestampShape s.data == some []

/-- The regex `^\d{4}-\d{2}-\d{2}T\d{2}:\d{2}:\d{2}Z$`. -/
def isOutputPattern (s : String) : Bool := eatTimestampShape s.data == some ['Z']

/-! ## Rounding (`round(value, 2)` on the exact rational `num/den`) -/

/-- `round(num/den, 2)` in hundredths: Python's float `round` performs
round-half-to-even on the (here exactly representable) value. -/
def pyRound2Div (num den : Nat) : Nat :=
  let q := 100 * num
  let f := q / den
  if 2 * (q % den) < den then f
  else if den < 2 * (q % den) then f + 1
  else if f % 2 = 0 then f else f + 1

/-- Specification-side rounding to an integer, half-to-even, over ℚ. -/
def roundHalfEvenRat (x : ℚ) : ℤ :=
  if Int.fract x < 1 / 2 then ⌊x⌋
  else if 1 / 2 < Int.fract x then ⌊x⌋ + 1
  else if ⌊x⌋ % 2 = 0 then ⌊x⌋ else ⌊x⌋ + 1

/-- Specification-side rounding to an integer, half-up, over ℚ. -/
def roundHalfUpRat (x : ℚ) : ℤ := ⌊x + 1 / 2⌋

/-! ## Records (`generate_record` / `create_data`) -/

/-- The external fake-data provider (`Faker`), one draw per record: the raw
strings it returns, and the fixed-length 10-digit `random_number`. -/
structure FakeProvider where
  name : String
  user_name : String
  email : String
  phone : String
  address : String
  mac_address : String
  ipv4_public : String
  iban : String
  birth_date : String
  accessed_at : String
  random_number10 : Nat
deriving DecidableEq

/-- `str.replace("\n", ", ")` for the one-character needle: every newline
becomes a comma and a space. -/
def replaceNewlinesL : List Char → List Char
  | [] => []
  | c :: cs =>
    if c = '\n' then ',' :: ' ' :: replaceNewlinesL cs
    else c :: replaceNewlinesL cs

def replaceNewlines (s : String) : String := ⟨replaceNewlinesL s.data⟩

/-- One synthetic record: the 15 fields of the dict built by
`generate_record`, in insertion order.  `consumed_traffic` is kept in
hundredths of a MB (the 2-fractional-digit decimal). -/
structure Record where
  person_name : String
  user_name : String
  email : String
  phone : String
  address : String
  mac_address : String
  ip_address : String
  iban : String
  birth_date : String
  accessed_at : String
  session_duration : Nat
  download_speed : Nat
  upload_speed : Nat
  consumed_traffic : Nat
  personal_number : Nat
deriving DecidableEq

/-- `generate_record`: the three uniform draws are passed in explicitly, the
provider strings come from `fake`. -/
def generate_record (fake : FakeProvider)
    (session_duration download_speed upload_speed : Nat) : Record :=
  { person_name := fake.name
    user_name := fake.user_name
    email := fake.email
    phone := fake.phone
    address := replaceNewlines fake.address
    mac_address := fake.mac_address
    ip_address := fake.ipv4_public
    iban := fake.iban
    birth_date := fake.birth_date
    accessed_at := fake.accessed_at
    session_duration := session_duration
    download_speed := download_speed
    upload_speed := upload_speed
    consumed_traffic :=
      pyRound2Div ((download_speed + upload_speed) * session_duration) 8
    personal_number := fake.random_number10 }

/-- `create_data(n)`: one fresh provider draw and one triple of uniform
draws (session s, download d, upload u) per index. -/
def create_data (n : Nat) (fks : Nat → FakeProvider)
    (rnd : Nat → Nat × Nat × Nat) : List Record :=
  (List.range n).map fun i =>
    generate_record (fks i) (rnd i).1 (rnd i).2.1 (rnd i).2.2

/-- `str(x)` with two fractional digits retained by `repr` of the rounded
float: trailing zeros drop, but at least one fractional digit remains. -/
def hundredthsToString (n : Nat) : String :=
  if n % 100 = 0 then natToString (n / 100) ++ ".0"
  else if n % 10 = 0 then
    natToString (n / 100) ++ "." ++ natToString (n % 100 / 10)
  else if n % 100 < 10 then
    natToString (n / 100) ++ ".0" ++ natToString (n % 100)
  else natToString (n / 100) ++ "." ++ natToString (n % 100)

/-- The CSV cell values of one record, in dict insertion order. -/
def Record.toRow (r : Record) : List String :=
  [r.person_name, r.user_name, r.email, r.phone, r.address, r.mac_address,
   r.ip_address, r.iban, r.birth_date, r.accessed_at,
   natToString r.session_duration, natToString r.download_speed,
   natToString r.upload_speed, hundredthsToString r.consumed_traffic,
   natToString r.personal_number]

/-- The dict keys of every generated record, in insertion order: the header
`write_to_csv` takes from `records[0].keys()`. -/
def fieldNames : List String :=
  ["person_name", "user_name", "email", "phone", "address", "mac_address",
   "ip_address", "iban", "birth_date", "accessed_at", "session_duration",
   "download_speed", "upload_speed", "consumed_traffic", "personal_number"]

/-! ## The on-disk table and the three file stages -/

/-- The delimited file: one header row and the data rows, values as text. -/
structure Table where
  header : List String
  rows : List (List String)
deriving DecidableEq

inductive WriteErr where
  | indexError
deriving DecidableEq

/-- `write_to_csv`: the header is `list(records[0].keys())` — on an empty
batch the subscript raises an uncaught `IndexError` before any file is
opened; otherwise a header row plus one row per record is written. -/
def write_to_csv (records : List Record) : Except WriteErr Table :=
  match records with
  | [] => .error .indexError
  | _ :: _ => .ok ⟨fieldNames, records.map Record.toRow⟩

/-- Overwrite column `j` of every row with `vals i` (row index `i`). -/
def setColAt (j : Nat) (vals : Nat → String) : Nat → List (List String) → List (List String)
  | _, [] => []
  | i, row :: rows => row.set j (vals i) :: setColAt j vals (i + 1) rows

/-- Append `vals i` at the end of every row (row index `i`). -/
def appendColAt (vals : Nat → String) : Nat → List (List String) → List (List String)
  | _, [] => []
  | i, row :: rows => (row ++ [vals i]) :: appendColAt vals (i + 1) rows

/-- The tabular library's `with_columns` with a named series: a column whose
name already exists is replaced in place (same position); otherwise the
series is appended as a new trailing column. -/
def with_columns (t : Table) (nm : String) (vals : Nat → String) : Table :=
  match t.header.findIdx? (· == nm) with
  | some j => ⟨t.header, setColAt j vals 0 t.rows⟩
  | none => ⟨t.header ++ [nm], appendColAt vals 0 t.rows⟩

/-- `add_id`: one fresh UUID string per existing row, handed to
`with_columns` under the name `unique_id`. -/
def add_id (t : Table) (uuids : Nat → String) : Table :=
  with_columns t "unique_id" uuids

inductive DtErr where
  | parseError
  | columnNotFound
deriving DecidableEq

/-- Parse-and-reformat of the `accessed_at` cell (position `j`) of every
row; the first cell that fails to parse aborts the whole transform. -/
def normalizeRows (j : Nat) : List (List String) → Except DtErr (List (List String))
  | [] => .ok []
  | row :: rows =>
    match parseDT (row.getD j "") with
    | none => .error .parseError
    | some t =>
      match normalizeRows j rows with
      | .error e => .error e
      | .ok rest => .ok (row.set j (formatDTZ t) :: rest)

/-- `update_datetime`'s in-memory transform: locate `accessed_at`, parse
every value with `%Y-%m-%dT%H:%M:%S`, reformat with `%Y-%m-%dT%H:%M:%SZ`. -/
def update_datetime (t : Table) : Except DtErr Table :=
  match t.header.findIdx? (· == "accessed_at") with
  | none => .error .columnNotFound
  | some j =>
    match normalizeRows j t.rows with
    | .error e => .error e
    | .ok rows => .ok ⟨t.header, rows⟩

/-- `update_datetime` as it acts on the disk: `write_csv` runs only after
the transform succeeded, so on the error path the file keeps its previous
contents and the exception propagates. -/
def update_datetime_run (disk : Table) : Table × Option DtErr :=
  match update_datetime disk with
  | .ok t => (t, none)
  | .error e => (disk, some e)

/-! ## Predicates used by the testable properties -/

/-- The provider strings of one draw are all non-empty (the spec's standing
assumption on provider-generated text fields). -/
def providerOk (fk : FakeProvider) : Bool :=
  (fk.name != "") && (fk.user_name != "") && (fk.email != "") && (fk.phone != "") &&
  (fk.address != "") && (fk.mac_address != "") && (fk.ipv4_public != "") &&
  (fk.iban != "") && (fk.birth_date != "") && (fk.accessed_at != "")

/-- All 15 serialized field values of a record are non-empty. -/
def recordComplete (r : Record) : Bool := r.toRow.all (· != "")

/-! ## Concrete instances used to exercise the pipeline -/

def w1T : Table := ⟨["accessed_at"], [["2024-01-02T03:04:05"]]⟩

def w1T' : Table := ⟨["accessed_at"], [["2024-01-02T03:04:05Z"]]⟩

def w2Fk : FakeProvider :=
  ⟨"Ana", "ana", "a@b.c", "5551", "Av. 1\n2B", "00:1B:44:11:3A:B7", "8.8.8.8",
   "ES9121000418450200051332", "1990-01-01", "2024-01-02T03:04:05", 1234567890⟩

def w2Fks : Nat → FakeProvider := fun _ => w2Fk

def w2Rnd : Nat → Nat × Nat × Nat := fun _ => (30, 10, 5)

def w2Rec : Record := generate_record w2Fk 30 10 5

def c3Fk : FakeProvider := ⟨"x", "x", "x", "x", "x", "x", "x", "x", "x", "x", 1⟩

def c5T : Table := ⟨["unique_id", "a"], [["x", "y"]]⟩

def c5U : Nat → String := fun _ => "u"

def w5T : Table := ⟨["a", "b"], [["1", "2"], ["3", "4"]]⟩

def w5U : Nat → String := fun i => if i = 0 then "u0" else "u1"

def w6Fk : FakeProvider :=
  ⟨"x", "x", "x", "x", "x", "x", "x", "x", "x", "2024-01-02T03:04:05", 1⟩

def w6Rec : Record := generate_record w6Fk 30 10 5

def w6U : Nat → String := fun _ => "u"

def w6T : Table := ⟨fieldNames, [Record.toRow w6Rec]⟩

def w6T' : Table :=
  ⟨fieldNames ++ ["unique_id"],
   [(Record.toRow w6Rec).set 9 "2024-01-02T03:04:05Z" ++ ["u"]]⟩

def w7T : Table := ⟨["accessed_at"], [["nope"]]⟩

def w8T : Table := ⟨["accessed_at"], [["oops"]]⟩

def w8U : Nat → String := fun _ => "u"

def w9T : Table := ⟨["accessed_at"], [["2024-01-02T03:04:05Z"]]⟩

/-! ## Digit lemmas -/

theorem isDigitC_digitChar10 : ∀ d < 10, isDigitC (digitChar10 d) = true := by decide

theorem d2n_digitChar10 : ∀ d < 10, d2n (digitChar10 d) = d := by decide

theorem d2n_lt_of_isDigitC {c : Char} (h : isDigitC c = true) : d2n c < 10 := by
  simp only [isDigitC, Bool.and_eq_true, decide_eq_true_eq] at h
  unfold d2n
  omega

theorem d2n_injOn {c₁ c₂ : Char} (h₁ : isDigitC c₁ = true) (h₂ : isDigitC c₂ = true)
    (h : d2n c₁ = d2n c₂) : c₁ = c₂ := by
  simp only [isDigitC, Bool.and_eq_true, decide_eq_true_eq] at h₁ h₂
  unfold d2n at h
  have : c₁.toNat = c₂.toNat := by omega
  exact Char.ext (UInt32.ext this)

theorem digitsToNat_from (a : Nat) (ds : List Char) :
    ds.foldl (fun x c => 10 * x + d2n c) a = a * 10 ^ ds.length + digitsToNat ds := by
  induction ds generalizing a with
  | nil => simp [digitsToNat]
  | cons c cs ih =>
    simp only [List.foldl_cons, List.length_cons, digitsToNat]
    rw [ih (10 * a + d2n c), ih (10 * 0 + d2n c)]
    ring

theorem digitsToNat_cons (c : Char) (cs : List Char) :
    digitsToNat (c :: cs) = d2n c * 10 ^ cs.length + digitsToNat cs := by
  rw [digitsToNat, List.foldl_cons, digitsToNat_from]
  ring

theorem digitsToNat_append (l₁ l₂ : List Char) :
    digitsToNat (l₁ ++ l₂) = digitsToNat l₁ * 10 ^ l₂.length + digitsToNat l₂ := by
  rw [digitsToNat, List.foldl_append]
  exact digitsToNat_from _ l₂

theorem digitsToNat_singleton (c : Char) : digitsToNat [c] = d2n c := by
  rw [digitsToNat_cons]
  simp [digitsToNat]

theorem digitsToNat_lt (ds : List Char) (h : ∀ c ∈ ds, isDigitC c = true) :
    digitsToNat ds < 10 ^ ds.length := by
  induction ds with
  | nil => simp [digitsToNat]
  | cons c cs ih =>
    rw [digitsToNat_cons, List.length_cons, pow_succ]
    have h1 : d2n c < 10 := d2n_lt_of_isDigitC (h c (by simp))
    have h2 := ih fun x hx => h x (by simp [hx])
    have h3 : d2n c * 10 ^ cs.length ≤ 9 * 10 ^ cs.length :=
      Nat.mul_le_mul_right _ (by omega)
    linarith

theorem digitsToNat_inj : ∀ ds es : List Char, ds.length = es.length →
    (∀ c ∈ ds, isDigitC c = true) → (∀ c ∈ es, isDigitC c = true) →
    digitsToNat ds = digitsToNat es → ds = es := by
  intro ds
  induction ds with
  | nil =>
    intro es hlen _ _ _
    cases es with
    | nil => rfl
    | cons e es' => simp at hlen
  | cons c cs ih =>
    intro es hlen hd he hv
    cases es with
    | nil => simp at hlen
    | cons e es' =>
      have hlen' : cs.length = es'.length := by simpa using hlen
      rw [digitsToNat_cons, digitsToNat_cons, hlen'] at hv
      have hdc : ∀ x ∈ cs, isDigitC x = true := fun x hx => hd x (by simp [hx])
      have hec : ∀ x ∈ es', isDigitC x = true := fun x hx => he x (by simp [hx])
      have h1 : digitsToNat cs < 10 ^ es'.length := hlen' ▸ digitsToNat_lt cs hdc
      have h2 : digitsToNat es' < 10 ^ es'.length := digitsToNat_lt es' hec
      have hP : 0 < 10 ^ es'.length := Nat.pos_pow_of_pos _ (by omega)
      have hdiv : ∀ a r : Nat, r < 10 ^ es'.length →
          (a * 10 ^ es'.length + r) / 10 ^ es'.length = a := by
        intro a r hr
        rw [Nat.mul_comm, Nat.mul_add_div hP, Nat.div_eq_of_lt hr]
        omega
      have hde : d2n c = d2n e := by
        have := hdiv (d2n c) (digitsToNat cs) h1
        rw [hv, hdiv (d2n e) (digitsToNat es') h2] at this
        omega
      have hvals : digitsToNat cs = digitsToNat es' := by
        rw [hde] at hv
        omega
      rw [d2n_injOn (hd c (by simp)) (he e (by simp)) hde,
        ih es' hlen' hdc hec hvals]

theorem natToPaddedDigits_length (w : Nat) : ∀ n, (natToPaddedDigits w n).length = w := by
  induction w with
  | zero => intro n; rfl
  | succ w ih => intro n; simp [natToPaddedDigits, ih]

theorem natToPaddedDigits_digits (w : Nat) :
    ∀ n, ∀ c ∈ natToPaddedDigits w n, isDigitC c = true := by
  induction w with
  | zero => intro n c hc; simp [natToPaddedDigits] at hc
  | succ w ih =>
    intro n c hc
    simp only [natToPaddedDigits, List.mem_append, List.mem_singleton] at hc
    rcases hc with h | h
    · exact ih _ c h
    · exact h ▸ isDigitC_digitChar10 _ (Nat.mod_lt _ (by omega))

theorem digitsToNat_natToPaddedDigits (w : Nat) :
    ∀ n, n < 10 ^ w → digitsToNat (natToPaddedDigits w n) = n := by
  induction w with
  | zero =>
    intro n h
    interval_cases n
    rfl
  | succ w ih =>
    intro n h
    rw [pow_succ] at h
    rw [natToPaddedDigits, digitsToNat_append, ih (n / 10) (by omega),
      List.length_singleton, digitsToNat_singleton,
      d2n_digitChar10 _ (Nat.mod_lt _ (by omega)), pow_one]
    omega

theorem natToPaddedDigits_digitsToNat (ds : List Char) (w : Nat) (hw : ds.length = w)
    (hd : ∀ c ∈ ds, isDigitC c = true) : natToPaddedDigits w (digitsToNat ds) = ds := by
  apply digitsToNat_inj _ ds (by rw [natToPaddedDigits_length, hw])
    (natToPaddedDigits_digits _ _) hd
  exact digitsToNat_natToPaddedDigits w _ (hw ▸ digitsToNat_lt ds hd)

theorem natDigits_ne_nil (n : Nat) : natDigits n ≠ [] := by
  rw [natDigits]
  split <;> simp

theorem natToString_ne_empty (n : Nat) : natToString n ≠ "" := by
  intro h
  exact natDigits_ne_nil n (congrArg String.data h)

/-! ## Rounding lemmas -/

/-- The hundredths computed by integer division agree with half-to-even
rounding of the exact rational `100·num/den`. -/
theorem pyRound2Div_eq (num den : Nat) (hden : 0 < den) :
    (pyRound2Div num den : ℤ) = roundHalfEvenRat ((100 * num : ℚ) / den) := by
  have hdQ : (0 : ℚ) < den := by exact_mod_cast hden
  have hx : ((100 * num : ℚ)) = ((100 * num : Nat) : ℚ) := by push_cast; ring
  rw [hx]
  set q : Nat := 100 * num with hq
  have hmod : den * (q / den) + q % den = q := Nat.div_add_mod q den
  have hfloor : ⌊(q : ℚ) / den⌋ = ((q / den : Nat) : ℤ) := by
    rw [Int.floor_eq_iff]
    constructor
    · rw [le_div_iff₀ hdQ]
      exact_mod_cast Nat.div_mul_le_self q den
    · rw [div_lt_iff₀ hdQ]
      have hm : q % den < den := Nat.mod_lt _ hden
      have : q < (q / den + 1) * den := by
        calc q = den * (q / den) + q % den := hmod.symm
          _ < den * (q / den) + den := Nat.add_lt_add_left hm _
          _ = (q / den + 1) * den := by ring
      exact_mod_cast this
  have hcast : (q : ℚ) = den * ((q / den : Nat) : ℚ) + ((q % den : Nat) : ℚ) := by
    exact_mod_cast congrArg (fun n : Nat => (n : ℚ)) hmod.symm
  have hfract : Int.fract ((q : ℚ) / den) = ((q % den : Nat) : ℚ) / den := by
    rw [Int.fract, hfloor]
    rw [eq_div_iff (ne_of_gt hdQ), sub_mul, div_mul_cancel₀ _ (ne_of_gt hdQ),
      Int.cast_natCast]
    linarith [hcast]
  have hlt : Int.fract ((q : ℚ) / den) < 1 / 2 ↔ 2 * (q % den) < den := by
    rw [hfract, div_lt_div_iff₀ hdQ (by norm_num : (0 : ℚ) < 2)]
    rw [show ((q % den : Nat) : ℚ) * 2 = ((2 * (q % den) : Nat) : ℚ) by push_cast; ring,
      show (1 : ℚ) * den = ((den : Nat) : ℚ) by ring]
    exact Nat.cast_lt
  have hgt : 1 / 2 < Int.fract ((q : ℚ) / den) ↔ den < 2 * (q % den) := by
    rw [hfract, div_lt_div_iff₀ (by norm_num : (0 : ℚ) < 2) hdQ]
    rw [show ((q % den : Nat) : ℚ) * 2 = ((2 * (q % den) : Nat) : ℚ) by push_cast; ring,
      show (1 : ℚ) * den = ((den : Nat) : ℚ) by ring]
    constructor
    · intro h
      exact Nat.cast_lt.mp (show ((den : Nat) : ℚ) < ((2 * (q % den) : Nat) : ℚ) by linarith)
    · intro h
      have : ((den : Nat) : ℚ) < ((2 * (q % den) : Nat) : ℚ) := Nat.cast_lt.mpr h
      linarith
  have hpar : (((q / den : Nat) : ℤ) % 2 = 0) ↔ (q / den) % 2 = 0 := by omega
  simp only [pyRound2Div, roundHalfEvenRat, ← hq]
  by_cases h1 : 2 * (q % den) < den
  · rw [if_pos h1, if_pos (hlt.mpr h1), hfloor]
  · rw [if_neg h1, if_neg (fun h => h1 (hlt.mp h))]
    by_cases h2 : den < 2 * (q % den)
    · rw [if_pos h2, if_pos (hgt.mpr h2), hfloor]
      push_cast
      ring
    · rw [if_neg h2, if_neg (fun h => h2 (hgt.mp h)), hfloor]
      by_cases h3 : (q / den) % 2 = 0
      · rw [if_pos h3, if_pos (hpar.mpr h3)]
      · rw [if_neg h3, if_neg (fun h => h3 (hpar.mp h))]
        push_cast
        ring

/-! ## Parser lemmas -/

theorem readNum_eq_some {mx n : Nat} {cs r : List Char}
    (h : readNum mx cs = some (n, r)) :
    ∃ ds, cs = ds ++ r ∧ ds ≠ [] ∧ ds.length ≤ mx ∧
      (∀ c ∈ ds, isDigitC c = true) ∧ n = digitsToNat ds := by
  simp only [readNum] at h
  set ds := (cs.takeWhile isDigitC).take mx with hds
  split at h
  · exact absurd h (by simp)
  · rename_i hne
    obtain ⟨hn, hr⟩ := Prod.mk.injEq .. ▸ Option.some.inj h
    have hpre : ds <+: cs := (List.take_prefix _ _).trans (List.takeWhile_prefix _)
    obtain ⟨tail, htail⟩ := hpre
    rw [← htail, List.drop_left] at hr
    refine ⟨ds, ?_, ?_, ?_, ?_, hn.symm⟩
    · rw [← htail, hr]
    · simpa using hne
    · exact List.length_take_le _ _
    · intro c hc
      exact List.mem_takeWhile_imp ((List.take_prefix _ _).subset hc)

theorem takeWhile_eq_self_of_all {α : Type} (p : α → Bool) :
    ∀ l : List α, (∀ c ∈ l, p c = true) → l.takeWhile p = l := by
  intro l h
  induction l with
  | nil => rfl
  | cons c cs ih =>
    rw [List.takeWhile_cons, if_pos (h c (by simp))]
    rw [ih fun x hx => h x (by simp [hx])]

theorem readNum_append {mx : Nat} (ds : List Char) (hlen : ds.length = mx)
    (hne : ds ≠ []) (hd : ∀ c ∈ ds, isDigitC c = true) (rest : List Char) :
    readNum mx (ds ++ rest) = some (digitsToNat ds, rest) := by
  have hself : ds.takeWhile isDigitC = ds := takeWhile_eq_self_of_all isDigitC ds hd
  have htw : ((ds ++ rest).takeWhile isDigitC).take mx = ds := by
    rw [List.takeWhile_append, if_pos (by rw [hself]), ← hlen, List.take_left]
  simp only [readNum, htw]
  rw [if_neg (by simpa using hne), hlen, ← hlen, List.drop_left]

theorem expectChar_eq_some {c : Char} {cs r : List Char}
    (h : expectChar c cs = some r) : cs = c :: r := by
  cases cs with
  | nil => exact absurd h (by simp [expectChar])
  | cons x xs =>
    rw [expectChar] at h
    split at h
    · rename_i hx
      rw [hx, Option.some.inj h]
    · exact absurd h (by simp)

theorem expectChar_cons (c : Char) (r : List Char) : expectChar c (c :: r) = some r := by
  simp [expectChar]

theorem eatDigits_eq_some : ∀ (k : Nat) (cs r : List Char), eatDigits k cs = some r →
    ∃ ds, cs = ds ++ r ∧ ds.length = k ∧ ∀ c ∈ ds, isDigitC c = true := by
  intro k
  induction k with
  | zero =>
    intro cs r h
    exact ⟨[], by simpa [eatDigits] using Option.some.inj h, rfl, by simp⟩
  | succ k ih =>
    intro cs r h
    cases cs with
    | nil => exact absurd h (by simp [eatDigits])
    | cons c cs' =>
      rw [eatDigits] at h
      split at h
      · rename_i hc
        obtain ⟨ds, hcs, hlen, hdig⟩ := ih cs' r h
        refine ⟨c :: ds, by simp [hcs], by simp [hlen], ?_⟩
        intro x hx
        rcases List.mem_cons.mp hx with hx | hx
        · exact hx ▸ hc
        · exact hdig x hx
      · exact absurd h (by simp)

theorem eatDigits_append {k : Nat} (ds : List Char) (hlen : ds.length = k)
    (hd : ∀ c ∈ ds, isDigitC c = true) (rest : List Char) :
    eatDigits k (ds ++ rest) = some rest := by
  induction ds generalizing k with
  | nil => rw [← hlen]; rfl
  | cons c cs ih =>
    rw [← hlen, List.length_cons, List.cons_append, eatDigits,
      if_pos (hd c (by simp))]
    exact ih rfl (fun x hx => hd x (by simp [hx]))

theorem readNum_exact {mx : Nat} (ds : List Char) (hlen : ds.length = mx)
    (hne : ds ≠ []) (hd : ∀ c ∈ ds, isDigitC c = true) :
    readNum mx ds = some (digitsToNat ds, []) := by
  have := readNum_append ds hlen hne hd []
  rwa [List.append_nil] at this

theorem getLast?_append_of_ne_nil {α : Type} {l : List α} (pre : List α) (h : l ≠ []) :
    (pre ++ l).getLast? = l.getLast? := by
  rw [List.getLast?_append]
  cases hl : l.getLast? with
  | none => exact absurd (List.getLast?_eq_none_iff.mp hl) h
  | some c => rfl

theorem getLast?_cons_of_ne_nil {α : Type} {l : List α} (c : α) (h : l ≠ []) :
    (c :: l).getLast? = l.getLast? := by
  rw [← List.singleton_append, getLast?_append_of_ne_nil _ h]

/-- A string matching `^\d{4}-\d{2}-\d{2}T\d{2}:\d{2}:\d{2}$` splits into its
six digit groups. -/
theorem isInputPattern_decomp {s : String} (h : isInputPattern s = true) :
    ∃ y mo d hh mi se : List Char,
      s.data = y ++ '-' :: (mo ++ '-' :: (d ++ 'T' :: (hh ++ ':' :: (mi ++ ':' :: se)))) ∧
      y.length = 4 ∧ mo.length = 2 ∧ d.length = 2 ∧ hh.length = 2 ∧
      mi.length = 2 ∧ se.length = 2 ∧
      (∀ c ∈ y, isDigitC c = true) ∧ (∀ c ∈ mo, isDigitC c = true) ∧
      (∀ c ∈ d, isDigitC c = true) ∧ (∀ c ∈ hh, isDigitC c = true) ∧
      (∀ c ∈ mi, isDigitC c = true) ∧ (∀ c ∈ se, isDigitC c = true) := by
  rw [isInputPattern, beq_iff_eq] at h
  simp only [eatTimestampShape, Option.bind_eq_bind, Option.bind_eq_some] at h
  obtain ⟨r1, e1, r2, e2, r3, e3, r4, e4, r5, e5, r6, e6, r7, e7, r8, e8, r9, e9,
    r10, e10, e11⟩ := h
  obtain ⟨y, hy, hylen, hyd⟩ := eatDigits_eq_some 4 _ _ e1
  rw [expectChar_eq_some e2] at hy
  obtain ⟨mo, hmo, hmolen, hmod⟩ := eatDigits_eq_some 2 _ _ e3
  rw [hmo, expectChar_eq_some e4] at hy
  obtain ⟨d, hd2, hdlen, hdd⟩ := eatDigits_eq_some 2 _ _ e5
  rw [hd2, expectChar_eq_some e6] at hy
  obtain ⟨hh, hhh, hhlen, hhd⟩ := eatDigits_eq_some 2 _ _ e7
  rw [hhh, expectChar_eq_some e8] at hy
  obtain ⟨mi, hmi, hmilen, hmid⟩ := eatDigits_eq_some 2 _ _ e9
  rw [hmi, expectChar_eq_some e10] at hy
  obtain ⟨se, hse, hselen, hsed⟩ := eatDigits_eq_some 2 _ _ e11
  rw [hse, List.append_nil] at hy
  exact ⟨y, mo, d, hh, mi, se, hy, hylen, hmolen, hdlen, hhlen, hmilen, hselen,
    hyd, hmod, hdd, hhd, hmid, hsed⟩

/-- Evaluation of the datetime parser on a string of the input shape: it
returns the six digit-group values when the calendar check passes. -/
theorem parseDT_of_decomp {s : String} {y mo d hh mi se : List Char}
    (hs : s.data = y ++ '-' :: (mo ++ '-' :: (d ++ 'T' :: (hh ++ ':' :: (mi ++ ':' :: se)))))
    (h4 : y.length = 4) (h2a : mo.length = 2) (h2b : d.length = 2) (h2c : hh.length = 2)
    (h2d : mi.length = 2) (h2e : se.length = 2)
    (hyd : ∀ c ∈ y, isDigitC c = true) (hmod : ∀ c ∈ mo, isDigitC c = true)
    (hdd : ∀ c ∈ d, isDigitC c = true) (hhd : ∀ c ∈ hh, isDigitC c = true)
    (hmid : ∀ c ∈ mi, isDigitC c = true) (hsed : ∀ c ∈ se, isDigitC c = true) :
    parseDT s = if validDT ⟨digitsToNat y, digitsToNat mo, digitsToNat d,
        digitsToNat hh, digitsToNat mi, digitsToNat se⟩ = true
      then some ⟨digitsToNat y, digitsToNat mo, digitsToNat d,
        digitsToNat hh, digitsToNat mi, digitsToNat se⟩ else none := by
  have hy0 : y ≠ [] := by intro hc; rw [hc] at h4; simp at h4
  have hmo0 : mo ≠ [] := by intro hc; rw [hc] at h2a; simp at h2a
  have hd0 : d ≠ [] := by intro hc; rw [hc] at h2b; simp at h2b
  have hh0 : hh ≠ [] := by intro hc; rw [hc] at h2c; simp at h2c
  have hmi0 : mi ≠ [] := by intro hc; rw [hc] at h2d; simp at h2d
  have hse0 : se ≠ [] := by intro hc; rw [hc] at h2e; simp at h2e
  simp only [parseDT, hs, Option.bind_eq_bind,
    readNum_append y h4 hy0 hyd, Option.some_bind, expectChar_cons,
    readNum_append mo h2a hmo0 hmod, readNum_append d h2b hd0 hdd,
    readNum_append hh h2c hh0 hhd, readNum_append mi h2d hmi0 hmid,
    readNum_exact se h2e hse0 hsed, List.isEmpty_nil, Bool.true_and]

/-- Appending the literal `Z` to a string of the input shape produces the
output shape. -/
theorem isOutputPattern_append_Z {s : String} (h : isInputPattern s = true) :
    isOutputPattern (s ++ "Z") = true := by
  obtain ⟨y, mo, d, hh, mi, se, hs, h4, h2a, h2b, h2c, h2d, h2e,
    hyd, hmod, hdd, hhd, hmid, hsed⟩ := isInputPattern_decomp h
  rw [isOutputPattern, beq_iff_eq, String.data_append,
    show ("Z" : String).data = ['Z'] from rfl, hs]
  simp only [List.append_assoc, List.cons_append]
  simp only [eatTimestampShape, Option.bind_eq_bind, Option.some_bind,
    eatDigits_append y h4 hyd, expectChar_cons, eatDigits_append mo h2a hmod,
    eatDigits_append d h2b hdd, eatDigits_append hh h2c hhd,
    eatDigits_append mi h2d hmid, eatDigits_append se h2e hsed]

/-- A successfully parsed string ends in a decimal digit (in particular it
does not end in `Z`). -/
theorem parseDT_some_last_digit {s : String} {t : DateTime} (h : parseDT s = some t) :
    ∃ c, s.data.getLast? = some c ∧ isDigitC c = true := by
  simp only [parseDT, Option.bind_eq_bind, Option.bind_eq_some] at h
  obtain ⟨⟨yv, r1⟩, e1, r2, e2, ⟨mov, r3⟩, e3, r4, e4, ⟨dv, r5⟩, e5, r6, e6,
    ⟨hv, r7⟩, e7, r8, e8, ⟨miv, r9⟩, e9, r10, e10, ⟨sev, r11⟩, e11, hfin⟩ := h
  dsimp only at e2 e4 e6 e8 e10 hfin
  split at hfin
  · rename_i hcond
    have hr11 : r11 = [] := by
      simp only [Bool.and_eq_true] at hcond
      exact List.isEmpty_iff.mp hcond.1
    subst hr11
    obtain ⟨ds, hds, hdne, _, hdd, _⟩ := readNum_eq_some e11
    rw [List.append_nil] at hds
    obtain ⟨ys, hy, _, _, _, _⟩ := readNum_eq_some e1
    rw [expectChar_eq_some e2] at hy
    obtain ⟨mos, hmo, _, _, _, _⟩ := readNum_eq_some e3
    rw [hmo, expectChar_eq_some e4] at hy
    obtain ⟨dss, hd2, _, _, _, _⟩ := readNum_eq_some e5
    rw [hd2, expectChar_eq_some e6] at hy
    obtain ⟨hhs, hhh, _, _, _, _⟩ := readNum_eq_some e7
    rw [hhh, expectChar_eq_some e8] at hy
    obtain ⟨mis, hmi, _, _, _, _⟩ := readNum_eq_some e9
    rw [hmi, expectChar_eq_some e10, hds] at hy
    obtain ⟨c, hc⟩ : ∃ c, ds.getLast? = some c := by
      cases hl : ds.getLast? with
      | none => exact absurd (List.getLast?_eq_none_iff.mp hl) hdne
      | some c => exact ⟨c, rfl⟩
    refine ⟨c, ?_, hdd c (List.mem_of_getLast?_eq_some hc)⟩
    rw [hy, getLast?_append_of_ne_nil ys (by simp),
      getLast?_cons_of_ne_nil _ (by simp), getLast?_append_of_ne_nil mos (by simp),
      getLast?_cons_of_ne_nil _ (by simp), getLast?_append_of_ne_nil dss (by simp),
      getLast?_cons_of_ne_nil _ (by simp), getLast?_append_of_ne_nil hhs (by simp),
      getLast?_cons_of_ne_nil _ (by simp), getLast?_append_of_ne_nil mis (by simp),
      getLast?_cons_of_ne_nil _ hdne]
    exact hc
  · cases hfin

theorem padYear_digits {y : List Char} (h4 : y.length = 4)
    (hd : ∀ c ∈ y, isDigitC c = true) : padYear (digitsToNat y) = y := by
  have hlt : digitsToNat y < 10000 := by
    have := digitsToNat_lt y hd
    rw [h4] at this
    norm_num at this
    exact this
  rw [padYear, if_pos hlt]
  exact natToPaddedDigits_digitsToNat y 4 h4 hd

theorem pad2_digits {l : List Char} (h2 : l.length = 2)
    (hd : ∀ c ∈ l, isDigitC c = true) : pad2 (digitsToNat l) = l := by
  have hlt : digitsToNat l < 100 := by
    have := digitsToNat_lt l hd
    rw [h2] at this
    norm_num at this
    exact this
  rw [pad2, if_pos hlt]
  exact natToPaddedDigits_digitsToNat l 2 h2 hd

/-- On an input of the strict shape, a successful parse-then-reformat is
exactly the original text with a literal `Z` appended. -/
theorem formatDTZ_parseDT {s : String} {t : DateTime} (hp : isInputPattern s = true)
    (h : parseDT s = some t) : formatDTZ t = s ++ "Z" := by
  obtain ⟨y, mo, d, hh, mi, se, hs, h4, h2a, h2b, h2c, h2d, h2e,
    hyd, hmod, hdd, hhd, hmid, hsed⟩ := isInputPattern_decomp hp
  rw [parseDT_of_decomp hs h4 h2a h2b h2c h2d h2e hyd hmod hdd hhd hmid hsed] at h
  split at h
  · have ht : t = ⟨digitsToNat y, digitsToNat mo, digitsToNat d,
        digitsToNat hh, digitsToNat mi, digitsToNat se⟩ := (Option.some.inj h).symm
    subst ht
    apply String.ext
    rw [String.data_append, show ("Z" : String).data = ['Z'] from rfl, hs]
    show padYear (digitsToNat y) ++ '-' :: pad2 (digitsToNat mo) ++
        '-' :: pad2 (digitsToNat d) ++ 'T' :: pad2 (digitsToNat hh) ++
        ':' :: pad2 (digitsToNat mi) ++ ':' :: pad2 (digitsToNat se) ++ ['Z'] = _
    rw [padYear_digits h4 hyd, pad2_digits h2a hmod, pad2_digits h2b hdd,
      pad2_digits h2c hhd, pad2_digits h2d hmid, pad2_digits h2e hsed]
    simp [List.append_assoc]
  · cases h

/-! ## String and record helper lemmas -/

theorem string_append_ne_empty (a b : String) (ha : a ≠ "") : a ++ b ≠ "" := by
  intro hc
  apply ha
  have hd := congrArg String.data hc
  rw [String.data_append] at hd
  exact String.ext (List.append_eq_nil.mp hd).1

theorem hundredthsToString_ne_empty (n : Nat) : hundredthsToString n ≠ "" := by
  rw [hundredthsToString]
  split_ifs <;>
    first
      | exact string_append_ne_empty _ _ (natToString_ne_empty _)
      | exact string_append_ne_empty _ _ (string_append_ne_empty _ _ (natToString_ne_empty _))

theorem replaceNewlinesL_ne_nil {cs : List Char} (h : cs ≠ []) :
    replaceNewlinesL cs ≠ [] := by
  cases cs with
  | nil => exact absurd rfl h
  | cons c cs' =>
    rw [replaceNewlinesL]
    split <;> simp

theorem replaceNewlines_ne_empty {s : String} (h : s ≠ "") :
    replaceNewlines s ≠ "" := by
  intro hc
  have hdata : replaceNewlinesL s.data = [] := congrArg String.data hc
  have hs : s.data ≠ [] := fun hnil => h (String.ext hnil)
  exact replaceNewlinesL_ne_nil hs hdata

theorem replaceNewlinesL_no_newline : ∀ cs : List Char, '\n' ∉ replaceNewlinesL cs := by
  intro cs
  induction cs with
  | nil => simp [replaceNewlinesL]
  | cons c cs ih =>
    rw [replaceNewlinesL]
    split
    · intro hmem
      rcases List.mem_cons.mp hmem with h | hmem'
      · exact absurd h (by decide)
      · rcases List.mem_cons.mp hmem' with h | h
        · exact absurd h (by decide)
        · exact ih h
    · intro hmem
      rcases List.mem_cons.mp hmem with h | h
      · rename_i hne
        exact hne h.symm
      · exact ih h

/-! ## Table lemmas -/

theorem setColAt_length (j : Nat) (vals : Nat → String) :
    ∀ (i : Nat) (rows : List (List String)), (setColAt j vals i rows).length = rows.length := by
  intro i rows
  induction rows generalizing i with
  | nil => rfl
  | cons row rows ih => simp [setColAt, ih]

theorem appendColAt_length (vals : Nat → String) :
    ∀ (i : Nat) (rows : List (List String)), (appendColAt vals i rows).length = rows.length := by
  intro i rows
  induction rows generalizing i with
  | nil => rfl
  | cons row rows ih => simp [appendColAt, ih]

theorem appendColAt_getD (vals : Nat → String) :
    ∀ (rows : List (List String)) (i k : Nat), k < rows.length →
      (appendColAt vals i rows).getD k [] = rows.getD k [] ++ [vals (i + k)] := by
  intro rows
  induction rows with
  | nil => intro i k hk; simp at hk
  | cons row rows ih =>
    intro i k hk
    cases k with
    | zero => simp [appendColAt]
    | succ k =>
      have hk' : k < rows.length := by
        simp only [List.length_cons] at hk
        omega
      have harg : i + 1 + k = i + (k + 1) := by omega
      rw [appendColAt, List.getD_cons_succ, List.getD_cons_succ, ih (i + 1) k hk', harg]

theorem getD_set_self : ∀ (l : List String) (j : Nat) (v : String), j < l.length →
    (l.set j v).getD j "" = v := by
  intro l
  induction l with
  | nil => intro j v hj; simp at hj
  | cons x xs ih =>
    intro j v hj
    cases j with
    | zero => rfl
    | succ j => exact ih j v (by simpa using hj)

theorem normalizeRows_ok {j : Nat} : ∀ {rows rows' : List (List String)},
    normalizeRows j rows = .ok rows' →
    List.Forall₂ (fun row row' => ∃ t, parseDT (row.getD j "") = some t ∧
      row' = row.set j (formatDTZ t)) rows rows' := by
  intro rows
  induction rows with
  | nil =>
    intro rows' h
    rw [← Except.ok.inj h]
    exact List.Forall₂.nil
  | cons row rows ih =>
    intro rows' h
    rw [normalizeRows] at h
    cases hp : parseDT (row.getD j "") with
    | none => rw [hp] at h; cases h
    | some t =>
      rw [hp] at h
      cases hr : normalizeRows j rows with
      | error e => rw [hr] at h; cases h
      | ok rest =>
        rw [hr] at h
        rw [← Except.ok.inj h]
        exact List.Forall₂.cons ⟨t, hp, rfl⟩ (ih hr)

theorem normalizeRows_error {j : Nat} : ∀ {rows : List (List String)} {e : DtErr},
    normalizeRows j rows = .error e →
    e = .parseError ∧ ∃ row ∈ rows, parseDT (row.getD j "") = none := by
  intro rows
  induction rows with
  | nil => intro e h; cases h
  | cons row rows ih =>
    intro e h
    rw [normalizeRows] at h
    cases hp : parseDT (row.getD j "") with
    | none =>
      rw [hp] at h
      exact ⟨(Except.error.inj h).symm, row, by simp, hp⟩
    | some t =>
      rw [hp] at h
      cases hr : normalizeRows j rows with
      | error e' =>
        rw [hr] at h
        obtain ⟨he, r, hmem, hpn⟩ := ih hr
        exact ⟨(Except.error.inj h).symm.trans he, r, by simp [hmem], hpn⟩
      | ok rest => rw [hr] at h; cases h

theorem normalizeRows_error_of_mem {j : Nat} : ∀ {rows : List (List String)}
    {row : List String}, row ∈ rows → parseDT (row.getD j "") = none →
    normalizeRows j rows = .error .parseError := by
  intro rows
  induction rows with
  | nil => intro row hmem _; simp at hmem
  | cons r rs ih =>
    intro row hmem hpn
    rw [normalizeRows]
    cases hp : parseDT (r.getD j "") with
    | none => rfl
    | some t =>
      rcases List.mem_cons.mp hmem with hr | hr
      · rw [← hr] at hp
        rw [hp] at hpn
        cases hpn
      · rw [ih hr hpn]

theorem forall₂_getD {R : List String → List String → Prop} :
    ∀ {xs ys : List (List String)}, List.Forall₂ R xs ys → ∀ i, i < xs.length →
      R (xs.getD i []) (ys.getD i []) := by
  intro xs ys h
  induction h with
  | nil => intro i hi; simp at hi
  | cons hR _ ih =>
    intro i hi
    cases i with
    | zero => simpa using hR
    | succ i => exact ih i (by simpa using hi)

theorem update_datetime_ok {t t' : Table} {j : Nat}
    (hj : t.header.findIdx? (· == "accessed_at") = some j)
    (h : update_datetime t = .ok t') :
    t'.header = t.header ∧
    List.Forall₂ (fun row row' => ∃ dt, parseDT (row.getD j "") = some dt ∧
      row' = row.set j (formatDTZ dt)) t.rows t'.rows := by
  rw [update_datetime, hj] at h
  dsimp only at h
  cases hr : normalizeRows j t.rows with
  | error e => rw [hr] at h; cases h
  | ok rows =>
    rw [hr] at h
    rw [← Except.ok.inj h]
    exact ⟨rfl, normalizeRows_ok hr⟩

/-! ## Claims -/

/-- C1: if `update_datetime` completes successfully on a table whose
`accessed_at` values all match the input pattern `YYYY-MM-DDTHH:MM:SS`, then
every `accessed_at` value of the rewritten table matches
`^\d{4}-\d{2}-\d{2}T\d{2}:\d{2}:\d{2}Z$`, and is textually the old value with
the literal `Z` appended (no timezone conversion). -/
theorem claim_C1 (t t' : Table) (j i : Nat)
    (hj : t.header.findIdx? (· == "accessed_at") = some j)
    (hpat : ∀ row ∈ t.rows, isInputPattern (row.getD j "") = true)
    (hok : update_datetime t = .ok t') (hi : i < t.rows.length) :
    (t'.rows.getD i []).getD j "" = ((t.rows.getD i []).getD j "") ++ "Z" ∧
    isOutputPattern ((t'.rows.getD i []).getD j "") = true := by
  obtain ⟨-, hfa⟩ := update_datetime_ok hj hok
  obtain ⟨dt, hp, hrow⟩ := forall₂_getD hfa i hi
  have hmem : t.rows.getD i [] ∈ t.rows := by
    rw [List.getD_eq_getElem?_getD, List.getElem?_eq_getElem hi]
    exact List.getElem_mem _
  have hpin : isInputPattern ((t.rows.getD i []).getD j "") = true := hpat _ hmem
  have happ : formatDTZ dt = (t.rows.getD i []).getD j "" ++ "Z" :=
    formatDTZ_parseDT hpin hp
  have hjlt : j < (t.rows.getD i []).length := by
    by_contra hge
    rw [List.getD_eq_default _ _ (by omega)] at hp
    rw [show parseDT "" = none from rfl] at hp
    cases hp
  rw [hrow, getD_set_self _ _ _ hjlt, happ]
  exact ⟨rfl, isOutputPattern_append_Z hpin⟩

theorem claim_C1_witness :
    (w1T'.rows.getD 0 []).getD 0 "" = ((w1T.rows.getD 0 []).getD 0 "") ++ "Z" ∧
    isOutputPattern ((w1T'.rows.getD 0 []).getD 0 "") = true :=
  claim_C1 w1T w1T' 0 0 (by decide) (by decide) (by rfl) (by decide)

/-- C2: for `n ≥ 1`, `create_data n` returns exactly `n` records and — the
provider strings being non-empty — every record has all 15 fields populated
with a non-empty value. -/
theorem claim_C2 (n : Nat) (fks : Nat → FakeProvider) (rnd : Nat → Nat × Nat × Nat)
    (_hn : 1 ≤ n) (hfk : ∀ i, providerOk (fks i) = true) :
    (create_data n fks rnd).length = n ∧
    ∀ r ∈ create_data n fks rnd, r.toRow.length = 15 ∧ recordComplete r = true := by
  constructor
  · rw [create_data, List.length_map, List.length_range]
  · intro r hr
    rw [create_data, List.mem_map] at hr
    obtain ⟨i, hi, rfl⟩ := hr
    have hok := hfk i
    simp only [providerOk, Bool.and_eq_true, bne_iff_ne] at hok
    obtain ⟨⟨⟨⟨⟨⟨⟨⟨⟨h1, h2⟩, h3⟩, h4⟩, h5⟩, h6⟩, h7⟩, h8⟩, h9⟩, h10⟩ := hok
    refine ⟨rfl, ?_⟩
    simp only [recordComplete, Record.toRow, generate_record, List.all_cons,
      List.all_nil, Bool.and_eq_true, bne_iff_ne]
    exact ⟨h1, h2, h3, h4, replaceNewlines_ne_empty h5, h6, h7, h8, h9, h10,
      natToString_ne_empty _, natToString_ne_empty _, natToString_ne_empty _,
      hundredthsToString_ne_empty _, natToString_ne_empty _, trivial⟩

theorem claim_C2_witness :
    (create_data 1 w2Fks w2Rnd).length = 1 ∧
    ((create_data 1 w2Fks w2Rnd).getD 0 w2Rec).toRow.length = 15 ∧
    recordComplete ((create_data 1 w2Fks w2Rnd).getD 0 w2Rec) = true := by
  have h := claim_C2 1 w2Fks w2Rnd (by decide) (fun _ => rfl)
  have hmem : (create_data 1 w2Fks w2Rnd).getD 0 w2Rec ∈ create_data 1 w2Fks w2Rnd := by
    decide
  exact ⟨h.1, (h.2 _ hmem).1, (h.2 _ hmem).2⟩

/-- C3 (counterexample): at `download_speed = 10`, `upload_speed = 5`,
`session_duration = 31` — all inside the documented ranges — the value
`(10+5)·31/8 = 58.125` rounds to `58.12` in the code (half-to-even), not to
the `58.13` that rounding half-up would give, so `consumed_traffic` is not
the half-up rounding of the formula. -/
theorem claim_C3_counterexample :
    ((generate_record c3Fk 31 10 5).consumed_traffic : ℤ) ≠
      roundHalfUpRat ((100 * ((10 + 5) * 31) : ℚ) / 8) := by
  have h1 : (generate_record c3Fk 31 10 5).consumed_traffic = 5812 := by decide
  have h2 : roundHalfUpRat ((100 * ((10 + 5) * 31) : ℚ) / 8) = 5813 := by
    rw [roundHalfUpRat]
    norm_num
  rw [h1, h2]
  decide

/-- C3 (amended): for every generated record with `download_speed` in 10–150,
`upload_speed` in 5–100 and `session_duration` in 30–7200,
`consumed_traffic` equals `(download_speed + upload_speed) ×
session_duration / 8` promoted to an exact rational and rounded
half-to-even (Python's float `round`) to exactly 2 fractional digits. -/
theorem claim_C3 (fk : FakeProvider) (dl ul sd : Nat)
    (_hd1 : 10 ≤ dl) (_hd2 : dl ≤ 150) (_hu1 : 5 ≤ ul) (_hu2 : ul ≤ 100)
    (_hs1 : 30 ≤ sd) (_hs2 : sd ≤ 7200) :
    ((generate_record fk sd dl ul).consumed_traffic : ℤ) =
      roundHalfEvenRat ((100 * ((dl + ul) * sd : Nat) : ℚ) / 8) := by
  show (pyRound2Div ((dl + ul) * sd) 8 : ℤ) = _
  exact pyRound2Div_eq ((dl + ul) * sd) 8 (by norm_num)

theorem claim_C3_witness :
    ((generate_record c3Fk 30 10 5).consumed_traffic : ℤ) =
      roundHalfEvenRat ((100 * ((10 + 5) * 30 : Nat) : ℚ) / 8) :=
  claim_C3 c3Fk 10 5 30 (by decide) (by decide) (by decide) (by decide)
    (by decide) (by decide)

/-- C4 (counterexample): called with an empty batch, `write_to_csv` hits the
out-of-range subscript `records[0]` and dies with an uncaught `IndexError`:
it neither writes a header-only file nor reports a configuration error. -/
theorem claim_C4_counterexample : write_to_csv [] = .error .indexError := rfl

/-- C4 (amended): `write_to_csv` fails, with an uncaught `IndexError` raised
by `records[0]` rather than a clean configuration-error rejection or a
header-only file, exactly when the batch is empty. -/
theorem claim_C4 (records : List Record) :
    write_to_csv records = .error .indexError ↔ records = [] := by
  cases records with
  | nil => simp [write_to_csv]
  | cons r rs => simp [write_to_csv]

/-- C5 (counterexample): on a file that already has a `unique_id` column the
tabular library's `with_columns` replaces that column in place, so `add_id`
neither appends a new trailing column nor leaves every pre-existing column's
values unchanged. -/
theorem claim_C5_counterexample :
    (add_id c5T c5U).header ≠ c5T.header ++ ["unique_id"] ∧
    (add_id c5T c5U).rows.getD 0 [] ≠ c5T.rows.getD 0 [] := by
  decide

/-- C5 (amended): for every input file whose header does not already contain
`unique_id`, `add_id` preserves the row order and the values of every
pre-existing column, appending `unique_id` as the single new trailing column,
included last in the header. -/
theorem claim_C5 (t : Table) (uuids : Nat → String) (i : Nat)
    (h : "unique_id" ∉ t.header) (hi : i < t.rows.length) :
    (add_id t uuids).header = t.header ++ ["unique_id"] ∧
    (add_id t uuids).rows.length = t.rows.length ∧
    (add_id t uuids).rows.getD i [] = t.rows.getD i [] ++ [uuids i] := by
  have hnone : t.header.findIdx? (· == "unique_id") = none := by
    rw [List.findIdx?_eq_none_iff]
    intro x hx
    exact beq_eq_false_iff_ne.mpr fun hc => h (hc ▸ hx)
  rw [add_id, with_columns, hnone]
  exact ⟨rfl, appendColAt_length uuids 0 t.rows,
    by simpa using appendColAt_getD uuids t.rows 0 i hi⟩

theorem claim_C5_witness :
    (add_id w5T w5U).header = w5T.header ++ ["unique_id"] ∧
    (add_id w5T w5U).rows.length = w5T.rows.length ∧
    (add_id w5T w5U).rows.getD 1 [] = w5T.rows.getD 1 [] ++ [w5U 1] :=
  claim_C5 w5T w5U 1 (by decide) (by decide)

/-- C6: the number of data rows equals the generated record count after every
stage — after `write_to_csv`, after `add_id`, and after a successful
`update_datetime`. -/
theorem claim_C6 (records : List Record) (t t' : Table) (uuids : Nat → String)
    (hw : write_to_csv records = .ok t)
    (hu : update_datetime (add_id t uuids) = .ok t') :
    t.rows.length = records.length ∧
    (add_id t uuids).rows.length = records.length ∧
    t'.rows.length = records.length := by
  cases records with
  | nil => cases hw
  | cons r rs =>
    rw [write_to_csv] at hw
    have ht := Except.ok.inj hw
    subst ht
    have hnone : fieldNames.findIdx? (· == "unique_id") = none := by decide
    have hadd : add_id ⟨fieldNames, (r :: rs).map Record.toRow⟩ uuids =
        ⟨fieldNames ++ ["unique_id"], appendColAt uuids 0 ((r :: rs).map Record.toRow)⟩ := by
      rw [add_id, with_columns]
      rw [show (Table.mk fieldNames ((r :: rs).map Record.toRow)).header = fieldNames from rfl,
        hnone]
    refine ⟨by simp, ?_, ?_⟩
    · rw [hadd]
      simp [appendColAt_length]
    · have hj : (add_id ⟨fieldNames, (r :: rs).map Record.toRow⟩ uuids).header.findIdx?
          (· == "accessed_at") = some 9 := by
        rw [hadd]
        dsimp only
        decide
      obtain ⟨-, hfa⟩ := update_datetime_ok hj hu
      have hlen := hfa.length_eq
      rw [hadd] at hlen
      simp only [appendColAt_length, List.length_map] at hlen
      exact hlen.symm

theorem claim_C6_witness :
    w6T.rows.length = [w6Rec].length ∧
    (add_id w6T w6U).rows.length = [w6Rec].length ∧
    w6T'.rows.length = [w6Rec].length :=
  claim_C6 [w6Rec] w6T w6T' w6U (by rfl) (by rfl)

/-- C7: `update_datetime` fails with a parse error if and only if some
`accessed_at` value in the table does not parse under the fixed input format
`%Y-%m-%dT%H:%M:%S` (no timezone offset); a single non-matching value aborts
the whole operation with no per-row recovery. -/
theorem claim_C7 (t : Table) (j : Nat)
    (hj : t.header.findIdx? (· == "accessed_at") = some j) :
    update_datetime t = .error .parseError ↔
      ∃ row ∈ t.rows, matchesInputFormat (row.getD j "") = false := by
  constructor
  · intro h
    rw [update_datetime, hj] at h
    dsimp only at h
    cases hr : normalizeRows j t.rows with
    | error e =>
      obtain ⟨-, row, hmem, hp⟩ := normalizeRows_error hr
      exact ⟨row, hmem, by rw [matchesInputFormat, hp]; rfl⟩
    | ok rows => rw [hr] at h; cases h
  · rintro ⟨row, hmem, hp⟩
    have hpn : parseDT (row.getD j "") = none := by
      rw [matchesInputFormat] at hp
      cases hq : parseDT (row.getD j "") with
      | none => rfl
      | some dt => rw [hq] at hp; cases hp
    rw [update_datetime, hj]
    dsimp only
    rw [normalizeRows_error_of_mem hmem hpn]

theorem claim_C7_witness : update_datetime w7T = .error .parseError :=
  (claim_C7 w7T 0 (by decide)).mpr ⟨["nope"], by decide, by decide⟩

/-- C8: when the datetime normalization raises a parse error, the file on
disk keeps exactly the contents `add_id` produced — the rewrite never runs,
so there is neither a partial write nor a rollback. -/
theorem claim_C8 (t : Table) (uuids : Nat → String) (e : DtErr)
    (h : (update_datetime_run (add_id t uuids)).2 = some e) :
    (update_datetime_run (add_id t uuids)).1 = add_id t uuids := by
  rw [update_datetime_run] at h ⊢
  cases hu : update_datetime (add_id t uuids) with
  | ok t2 =>
    rw [hu] at h
    dsimp only at h
    cases h
  | error e2 => rfl

theorem claim_C8_witness :
    (update_datetime_run (add_id w8T w8U)).1 = add_id w8T w8U :=
  claim_C8 w8T w8U .parseError (by decide)

/-- C9: re-running `update_datetime` on an already-normalized table (every
`accessed_at` ending in `Z`) deterministically leaves the table unchanged and
either raises the fatal parse error (the trailing `Z` no longer matches the
input format) or, in the degenerate row-free case, is a no-op. -/
theorem claim_C9 (t : Table) (j : Nat)
    (hj : t.header.findIdx? (· == "accessed_at") = some j)
    (hz : ∀ row ∈ t.rows, (row.getD j "").data.getLast? = some 'Z') :
    (update_datetime_run t).1 = t ∧
      ((update_datetime_run t).2 = some DtErr.parseError ∨
        ((update_datetime_run t).2 = none ∧ t.rows = [])) := by
  cases hrows : t.rows with
  | nil =>
    have hu : update_datetime t = .ok ⟨t.header, []⟩ := by
      rw [update_datetime, hj]
      dsimp only
      rw [hrows]
      rfl
    have ht : (⟨t.header, []⟩ : Table) = t := by
      cases t
      dsimp only at hrows ⊢
      rw [hrows]
    rw [update_datetime_run, hu]
    exact ⟨ht, Or.inr ⟨rfl, rfl⟩⟩
  | cons row rest =>
    have hlast := hz row (by rw [hrows]; exact List.mem_cons_self row rest)
    have hpn : parseDT (row.getD j "") = none := by
      cases hp : parseDT (row.getD j "") with
      | none => rfl
      | some dt =>
        obtain ⟨c, hc, hdig⟩ := parseDT_some_last_digit hp
        rw [hlast] at hc
        rw [← Option.some.inj hc] at hdig
        exact absurd hdig (by decide)
    have herr : update_datetime t = .error .parseError := by
      have hmemt : row ∈ t.rows := by
        rw [hrows]
        exact List.mem_cons_self row rest
      have hn := normalizeRows_error_of_mem hmemt hpn
      rw [update_datetime, hj]
      dsimp only
      rw [hn]
    rw [update_datetime_run, herr]
    exact ⟨rfl, Or.inl rfl⟩

theorem claim_C9_witness :
    (update_datetime_run w9T).1 = w9T ∧
      ((update_datetime_run w9T).2 = some DtErr.parseError ∨
        ((update_datetime_run w9T).2 = none ∧ w9T.rows = [])) :=
  claim_C9 w9T 0 (by decide) (by decide)

/-- C10: every record produced by `generate_record` has an `address` value
containing no newline character: the address is the provider's raw address
with each newline replaced by the two-character sequence `", "` before the
record is built, so the writer's newline-quoting path is never triggered by
an address. -/
theorem claim_C10 (fk : FakeProvider) (sd dl ul : Nat) :
    (generate_record fk sd dl ul).address = replaceNewlines fk.address ∧
    '\n' ∉ ((generate_record fk sd dl ul).address).data := by
  exact ⟨rfl, replaceNewlinesL_no_newline fk.address.data⟩

end BatchGen
